import Mathlib

/-!
Shallow embedding of the `angela` repository (two Python files:
`src/trading/technical.py` and `research/pairs_monitor.py`).

The numeric model: pandas/numpy compute over IEEE-754 doubles where a
division by zero yields a signed infinity (or NaN for 0/0) and NaN
propagates through arithmetic while every comparison against NaN is
False.  We model such values by `FVal`: an exact rational, a signed
infinity, or NaN.  Rounding of doubles is not modelled; none of the
properties below depends on it.  Input price columns are NaN-free
numeric columns and are modelled as `List ℚ`; derived series, which may
contain NaN (warm-up rows of rolling windows, zero denominators), are
`List FVal`.
-/

namespace Angela

/-- An IEEE-754-style scalar as produced by numpy/pandas arithmetic:
NaN, a signed infinity (`inf true` is +∞, `inf false` is −∞), or a
finite value (modelled as an exact rational). -/
inductive FVal where
  | nan : FVal
  | inf : Bool → FVal
  | num : ℚ → FVal
deriving DecidableEq

/-- IEEE negation. -/
def FVal.neg : FVal → FVal
  | .nan => .nan
  | .inf s => .inf (!s)
  | .num a => .num (-a)

/-- IEEE addition: NaN propagates, ∞ + (−∞) is NaN. -/
def FVal.add : FVal → FVal → FVal
  | .nan, _ => .nan
  | _, .nan => .nan
  | .inf s, .inf t => if s = t then .inf s else .nan
  | .inf s, .num _ => .inf s
  | .num _, .inf t => .inf t
  | .num a, .num b => .num (a + b)

/-- IEEE subtraction. -/
def FVal.sub (x y : FVal) : FVal := x.add y.neg

/-- IEEE multiplication: NaN propagates, ∞ · 0 is NaN. -/
def FVal.mul : FVal → FVal → FVal
  | .nan, _ => .nan
  | _, .nan => .nan
  | .inf s, .inf t => .inf (s == t)
  | .inf s, .num b => if b = 0 then .nan else .inf (s == decide (0 < b))
  | .num a, .inf t => if a = 0 then .nan else .inf (t == decide (0 < a))
  | .num a, .num b => .num (a * b)

/-- IEEE division as numpy performs it: a nonzero finite value divided
by zero is a signed infinity, 0/0 is NaN, a finite value divided by an
infinity is 0 (we do not track the sign of zero). -/
def FVal.div : FVal → FVal → FVal
  | .nan, _ => .nan
  | _, .nan => .nan
  | .inf _, .inf _ => .nan
  | .inf s, .num b => if b < 0 then .inf (!s) else .inf s
  | .num _, .inf _ => .num 0
  | .num a, .num b =>
      if b = 0 then (if a = 0 then .nan else .inf (decide (0 < a)))
      else .num (a / b)

/-- IEEE strict less-than: any comparison involving NaN is False. -/
def FVal.ltb : FVal → FVal → Bool
  | .nan, _ => false
  | _, .nan => false
  | .num a, .num b => decide (a < b)
  | .num _, .inf t => t
  | .inf s, .num _ => !s
  | .inf s, .inf t => !s && t

/-- IEEE strict greater-than (`x > y` is `y < x`). -/
def FVal.gtb (x y : FVal) : Bool := FVal.ltb y x

/-- IEEE less-or-equal: any comparison involving NaN is False. -/
def FVal.leb : FVal → FVal → Bool
  | .nan, _ => false
  | _, .nan => false
  | .num a, .num b => decide (a ≤ b)
  | .num _, .inf t => t
  | .inf s, .num _ => !s
  | .inf s, .inf t => s == t || (!s && t)

/-- IEEE absolute value. -/
def FVal.abs : FVal → FVal
  | .nan => .nan
  | .inf _ => .inf true
  | .num a => .num |a|

/-- `Series.diff()`: first entry NaN, then consecutive differences
(current row minus previous row). -/
def diffQ : List ℚ → List FVal
  | [] => []
  | x :: xs => FVal.nan :: List.zipWith (fun a b => FVal.num (a - b)) xs (x :: xs)

/-- `Series.shift(1)`: first entry NaN, every value moved down one row. -/
def shiftF (xs : List FVal) : List FVal :=
  match xs with
  | [] => []
  | _ :: _ => FVal.nan :: xs.dropLast

/-- Sum of a window in IEEE arithmetic (NaN in the window poisons it,
matching pandas, whose rolling kernels emit NaN unless the window holds
a full `window` count of non-NaN observations). -/
def fsum (l : List FVal) : FVal := l.foldr FVal.add (FVal.num 0)

/-- The length-`p` window of rows ending at row `i`. -/
def window (p i : Nat) (xs : List FVal) : List FVal := (xs.take (i + 1)).drop (i + 1 - p)

/-- `Series.rolling(window=p).mean()`: NaN until `p` rows have
accumulated, then the mean of the last `p` values; NaN inside a full
window also yields NaN.  (pandas rejects `window=0`; we render every
row of that impossible call undefined.) -/
def rollingMean (p : Nat) (xs : List FVal) : List FVal :=
  (List.range xs.length).map (fun i =>
    if i + 1 < p ∨ p = 0 then FVal.nan
    else FVal.div (fsum (window p i xs)) (FVal.num p))

/-- `Series.rolling(p).sum()` with the same NaN discipline as the mean. -/
def rollingSum (p : Nat) (xs : List FVal) : List FVal :=
  (List.range xs.length).map (fun i =>
    if i + 1 < p ∨ p = 0 then FVal.nan
    else fsum (window p i xs))

/-- Tail of `Series.ewm(span, adjust=False).mean()` on a NaN-free
series: `e[t] = (1−α)·e[t−1] + α·x[t]`. -/
def ewmAux (a : ℚ) (prev : ℚ) : List ℚ → List ℚ
  | [] => []
  | x :: xs => ((1 - a) * prev + a * x) :: ewmAux a ((1 - a) * prev + a * x) xs

/-- `Series.ewm(span=p, adjust=False).mean()` on a NaN-free series:
`e[0] = x[0]` and `e[t] = (1−α)·e[t−1] + α·x[t]` with `α = 2/(p+1)`.
Every series this is applied to in the source (the Close column and
the MACD difference of two EMAs) is NaN-free, so the NaN-skipping
branch of pandas is never exercised and is not modelled. -/
def ewmMean (span : Nat) : List ℚ → List ℚ
  | [] => []
  | x :: xs => x :: ewmAux (2 / ((span : ℚ) + 1)) x xs

/-- Tail of `Series.cumsum()` on a NaN-free series. -/
def cumsumAux (acc : ℚ) : List ℚ → List ℚ
  | [] => []
  | x :: xs => (acc + x) :: cumsumAux (acc + x) xs

/-- `Series.cumsum()` on a NaN-free series. -/
def cumsumQ (xs : List ℚ) : List ℚ := cumsumAux 0 xs

/-- `np.where(cond, 1, -1)` over a boolean condition column. -/
def signalOf (cond : List Bool) : List Int := cond.map (fun b => if b then 1 else -1)

/-- `calculate_sma`: `Close.rolling(window=period).mean()`. -/
def SMA (period : Nat) (close : List ℚ) : List FVal :=
  rollingMean period (close.map FVal.num)

/-- `np.where(Close > SMA_period, 1, -1)`. -/
def SMA_Signal (period : Nat) (close : List ℚ) : List Int :=
  signalOf (List.zipWith (fun c s => FVal.gtb (FVal.num c) s) close (SMA period close))

/-- `calculate_ema`: `Close.ewm(span=period, adjust=False).mean()`. -/
def EMA (period : Nat) (close : List ℚ) : List ℚ := ewmMean period close

/-- `np.where(Close > EMA_period, 1, -1)`. -/
def EMA_Signal (period : Nat) (close : List ℚ) : List Int :=
  signalOf (List.zipWith (fun c e => decide (e < c)) close (EMA period close))

/-- `calculate_macd`: `EMA_fast - EMA_slow`. -/
def MACD (fast slow : Nat) (close : List ℚ) : List ℚ :=
  List.zipWith (fun a b => a - b) (ewmMean fast close) (ewmMean slow close)

/-- `MACD.ewm(span=signal, adjust=False).mean()`. -/
def MACD_Signal_Line (fast slow signal : Nat) (close : List ℚ) : List ℚ :=
  ewmMean signal (MACD fast slow close)

/-- `np.where(MACD > MACD_Signal_Line, 1, -1)`. -/
def MACD_Signal (fast slow signal : Nat) (close : List ℚ) : List Int :=
  signalOf (List.zipWith (fun m s => decide (s < m))
    (MACD fast slow close) (MACD_Signal_Line fast slow signal close))

/-- `calculate_rsi`'s `gain`: `(delta.where(delta > 0, 0)).rolling(window=period).mean()`
(`delta = Close.diff()`; the `where` condition is False on the leading
NaN of `diff`, so every entry of the clipped series is a number). -/
def gain (period : Nat) (close : List ℚ) : List FVal :=
  rollingMean period
    ((diffQ close).map (fun d => if FVal.gtb d (FVal.num 0) then d else FVal.num 0))

/-- `calculate_rsi`'s `loss`: `(-delta.where(delta < 0, 0)).rolling(window=period).mean()`. -/
def loss (period : Nat) (close : List ℚ) : List FVal :=
  rollingMean period
    ((diffQ close).map (fun d => FVal.neg (if FVal.ltb d (FVal.num 0) then d else FVal.num 0)))

/-- The shared `100 - (100 / (1 + rs))` mapping applied to the RSI and
MFI ratios. -/
def rs_to_index (r : FVal) : FVal :=
  FVal.sub (FVal.num 100) (FVal.div (FVal.num 100) (FVal.add (FVal.num 1) r))

/-- `calculate_rsi`: `100 - (100 / (1 + gain / loss))` rowwise. -/
def RSI (period : Nat) (close : List ℚ) : List FVal :=
  List.zipWith (fun g l => rs_to_index (FVal.div g l)) (gain period close) (loss period close)

/-- `np.where(RSI > 50, 1, -1)`. -/
def RSI_Signal (period : Nat) (close : List ℚ) : List Int :=
  signalOf ((RSI period close).map (fun v => FVal.gtb v (FVal.num 50)))

/-- `calculate_mfi`'s `typical_price = (High + Low + Close) / 3`. -/
def typical_price (high low close : List ℚ) : List ℚ :=
  List.zipWith3 (fun h l c => (h + l + c) / 3) high low close

/-- `calculate_mfi`'s `money_flow = typical_price * Volume`. -/
def money_flow (high low close volume : List ℚ) : List ℚ :=
  List.zipWith (fun t v => t * v) (typical_price high low close) volume

/-- The row condition `typical_price > typical_price.shift(1)` (False
on the first row because of the NaN introduced by `shift`). -/
def tp_up (high low close : List ℚ) : List Bool :=
  List.zipWith (fun t s => FVal.gtb (FVal.num t) s)
    (typical_price high low close) (shiftF ((typical_price high low close).map FVal.num))

/-- The row condition `typical_price < typical_price.shift(1)`. -/
def tp_down (high low close : List ℚ) : List Bool :=
  List.zipWith (fun t s => FVal.ltb (FVal.num t) s)
    (typical_price high low close) (shiftF ((typical_price high low close).map FVal.num))

/-- `positive_flow = money_flow.where(tp > tp.shift(1), 0).rolling(period).sum()`. -/
def positive_flow (period : Nat) (high low close volume : List ℚ) : List FVal :=
  rollingSum period
    (List.zipWith (fun m c => if c then FVal.num m else FVal.num 0)
      (money_flow high low close volume) (tp_up high low close))

/-- `negative_flow = money_flow.where(tp < tp.shift(1), 0).rolling(period).sum()`. -/
def negative_flow (period : Nat) (high low close volume : List ℚ) : List FVal :=
  rollingSum period
    (List.zipWith (fun m c => if c then FVal.num m else FVal.num 0)
      (money_flow high low close volume) (tp_down high low close))

/-- `calculate_mfi`: `100 - (100 / (1 + positive_flow / negative_flow))` rowwise. -/
def MFI (period : Nat) (high low close volume : List ℚ) : List FVal :=
  List.zipWith (fun p n => rs_to_index (FVal.div p n))
    (positive_flow period high low close volume) (negative_flow period high low close volume)

/-- `np.where(MFI > 50, 1, -1)`. -/
def MFI_Signal (period : Nat) (high low close volume : List ℚ) : List Int :=
  signalOf ((MFI period high low close volume).map (fun v => FVal.gtb v (FVal.num 50)))

/-- `calculate_roc`: `Close.pct_change(periods=period) * 100`, where
`pct_change` is `Close / Close.shift(period) - 1` (NaN on the first
`period` rows). -/
def ROC (period : Nat) (close : List ℚ) : List FVal :=
  (List.range close.length).map (fun i =>
    if i < period then FVal.nan
    else FVal.mul
      (FVal.sub (FVal.div (FVal.num (close.getD i 0)) (FVal.num (close.getD (i - period) 0)))
        (FVal.num 1))
      (FVal.num 100))

/-- `np.where(ROC > 0, 1, -1)`. -/
def ROC_Signal (period : Nat) (close : List ℚ) : List Int :=
  signalOf ((ROC period close).map (fun v => FVal.gtb v (FVal.num 0)))

/-- A computable integer square root (largest `k` with `k·k ≤ n`),
used to model `sqrt` inside the rolling standard deviation. -/
def natSqrtA (n : Nat) : Nat := ((List.range (n + 1)).filter (fun k => k * k ≤ n)).length - 1

/-- A computable rational square-root approximation, exact on perfect
squares.  The source computes an IEEE `sqrt`; the properties proved
below use only that the result is nonnegative, which holds for both. -/
def ratSqrt (q : ℚ) : ℚ := (natSqrtA (q.num.toNat * q.den) : ℚ) / (q.den : ℚ)

/-- Sample variance (`ddof=1`, as pandas `std` uses) of a NaN-free
window of `p ≥ 2` values. -/
def sampleVar (l : List ℚ) : ℚ :=
  ((l.map (fun x => (x - l.foldr (· + ·) 0 / (l.length : ℚ)) ^ 2)).foldr (· + ·) 0) /
    ((l.length : ℚ) - 1)

/-- `Close.rolling(window=p).std()`: NaN until the window is full (and
for `p < 2`, where the `ddof=1` sample deviation is undefined), then
the square root of the sample variance of the last `p` closes. -/
def rollingStd (p : Nat) (xs : List ℚ) : List FVal :=
  (List.range xs.length).map (fun i =>
    if i + 1 < p ∨ p < 2 then FVal.nan
    else FVal.num (ratSqrt (sampleVar ((xs.take (i + 1)).drop (i + 1 - p)))))

/-- `calculate_bollinger_bands`: `BB_middle = Close.rolling(window=period).mean()`. -/
def BB_middle (period : Nat) (close : List ℚ) : List FVal :=
  rollingMean period (close.map FVal.num)

/-- `BB_upper = BB_middle + std_dev * std`. -/
def BB_upper (period : Nat) (std_dev : ℚ) (close : List ℚ) : List FVal :=
  List.zipWith (fun m s => FVal.add m (FVal.mul (FVal.num std_dev) s))
    (BB_middle period close) (rollingStd period close)

/-- `BB_lower = BB_middle - std_dev * std`. -/
def BB_lower (period : Nat) (std_dev : ℚ) (close : List ℚ) : List FVal :=
  List.zipWith (fun m s => FVal.sub m (FVal.mul (FVal.num std_dev) s))
    (BB_middle period close) (rollingStd period close)

/-- `np.where(Close > BB_middle, 1, -1)`. -/
def BB_Signal (period : Nat) (close : List ℚ) : List Int :=
  signalOf (List.zipWith (fun c m => FVal.gtb (FVal.num c) m) close (BB_middle period close))

/-- Tail rows of `calculate_atr`'s true range: with a previous close
available, `max(High - Low, |High - prevClose|, |Low - prevClose|)`
(the rowwise `DataFrame.max` skips nothing here since all three are
numbers). -/
def trueRangeAux (prevClose : ℚ) : List (ℚ × ℚ × ℚ) → List ℚ
  | [] => []
  | (h, l, c) :: rest => max (h - l) (max |h - prevClose| |l - prevClose|) :: trueRangeAux c rest

/-- `calculate_atr`'s true range series: on the first row
`Close.shift()` is NaN, the rowwise `max(axis=1)` skips the two NaN
columns, and the row reduces to `High - Low`. -/
def true_range (high low close : List ℚ) : List ℚ :=
  match List.zipWith3 (fun h l c => (h, l, c)) high low close with
  | [] => []
  | (h, l, c) :: rest => (h - l) :: trueRangeAux c rest

/-- `calculate_atr`: `true_range.rolling(window=period).mean()`. -/
def ATR (period : Nat) (high low close : List ℚ) : List FVal :=
  rollingMean period ((true_range high low close).map FVal.num)

/-- `np.where(ATR < ATR.rolling(window=10).mean(), 1, -1)`. -/
def ATR_Signal (period : Nat) (high low close : List ℚ) : List Int :=
  signalOf (List.zipWith FVal.ltb (ATR period high low close)
    (rollingMean 10 (ATR period high low close)))

/-- `calculate_obv`'s multiplier `(~Close.diff().le(0) * 2 - 1)`:
`le` is False on the leading NaN of `diff`, so the first row gets `+1`;
any later row whose close fell **or stayed equal** gets `-1`. -/
def obvMult (close : List ℚ) : List Int :=
  (diffQ close).map (fun d => if FVal.leb d (FVal.num 0) then -1 else 1)

/-- `calculate_obv`: `(Volume * (~Close.diff().le(0) * 2 - 1)).cumsum()`. -/
def OBV (close volume : List ℚ) : List ℚ :=
  cumsumQ (List.zipWith (fun (v : ℚ) (m : Int) => v * (m : ℚ)) volume (obvMult close))

/-- `np.where(OBV > OBV.shift(1), 1, -1)`. -/
def OBV_Signal (close volume : List ℚ) : List Int :=
  signalOf (List.zipWith (fun o s => FVal.gtb (FVal.num o) s)
    (OBV close volume) (shiftF ((OBV close volume).map FVal.num)))

/-- `calculate_volume_sma`: `Volume.rolling(window=period).mean()`. -/
def Volume_SMA (period : Nat) (volume : List ℚ) : List FVal :=
  rollingMean period (volume.map FVal.num)

/-- `np.where(Volume > Volume_SMA, 1, -1)`. -/
def Volume_SMA_Signal (period : Nat) (volume : List ℚ) : List Int :=
  signalOf (List.zipWith (fun v s => FVal.gtb (FVal.num v) s) volume (Volume_SMA period volume))

/-- An alert as built in `check_divergence` (the wall-clock timestamp
field is not modelled). -/
structure Alert where
  pair : String
  zscore : FVal
  action : String
deriving DecidableEq

/-- One pair's view of a monitoring tick: its label, the current price
quotient `current_price1 / current_price2` of the two assets, and the
stored `BaselineStats` (`mean`/`std` of the 30-day historical price
quotient, fixed at startup). -/
structure PairObs where
  label : String
  cur : ℚ
  mean : ℚ
  std : ℚ

/-- `zscore = (current_ratio - hist_stats['mean']) / hist_stats['std']`
in numpy float arithmetic. -/
def zscoreOf (cur mean std : ℚ) : FVal :=
  FVal.div (FVal.num (cur - mean)) (FVal.num std)

/-- The per-pair body of `check_divergence`: append an alert when
`abs(zscore) > zscore_threshold`, with action `'SHORT' if zscore > 0
else 'LONG'`. -/
def check_divergence_pair (o : PairObs) (threshold : ℚ) : Option Alert :=
  if FVal.gtb (FVal.abs (zscoreOf o.cur o.mean o.std)) (FVal.num threshold) then
    some ⟨o.label, zscoreOf o.cur o.mean o.std,
      if FVal.gtb (zscoreOf o.cur o.mean o.std) (FVal.num 0) then "SHORT" else "LONG"⟩
  else none

/-- `check_divergence`: the loop over `self.pairs`, collecting the
per-pair alerts in order. -/
def check_divergence (obs : List PairObs) (threshold : ℚ) : List Alert :=
  obs.filterMap (fun o => check_divergence_pair o threshold)

/-- The result of one tick body of `monitor_continuously`: either the
alert list `check_divergence` returned (plus the prints, which we do
not model), or the exception it raised. -/
inductive TickOutcome where
  | ok (alerts : List Alert)
  | err (msg : String)

/-- One iteration of the `while True` loop of `monitor_continuously`:
the `try` arm sleeps `interval_seconds` after a successful tick, the
`except` arm logs and sleeps the fixed 10 seconds; both arms fall
through to the next iteration (the Bool records that the loop
continues). -/
def monitor_step (interval : Nat) : TickOutcome → Nat × Bool
  | .ok _ => (interval, true)
  | .err _ => (10, true)

/-- The sleep durations of a run of `monitor_continuously` over a
sequence of tick outcomes. -/
def monitor_sleeps (interval : Nat) (ticks : List TickOutcome) : List Nat :=
  ticks.map (fun t => (monitor_step interval t).1)

/-- The `column_mapping` dict of `Technical.__init__`. -/
def column_mapping : List (String × String) :=
  [("close", "Close"), ("high", "High"), ("low", "Low"), ("volume", "Volume"),
   ("timestamp", "Date")]

/-- The effect of `self.df.rename(columns=...)` on one column name:
renamed when it is literally one of the five lowercase keys, untouched
otherwise. -/
def standardize_column (c : String) : String :=
  match column_mapping.lookup c with
  | some v => v
  | none => c

/-- The renamed column-name list of the constructed frame. -/
def rename_columns (cols : List String) : List String := cols.map standardize_column

/-- The row reordering of `Technical.__init__`: when a `Date` column
exists after renaming, `sort_values('Date')` sorts the rows ascending
by that key (which `set_index` then makes the table's index).  Rows
are modelled as a date key paired with the remaining numeric fields. -/
def init_rows (cols : List String) (rows : List (ℚ × List ℚ)) : List (ℚ × List ℚ) :=
  if (rename_columns cols).contains "Date" then
    rows.mergeSort (fun a b => decide (a.1 ≤ b.1))
  else rows

/-! ### General lemmas about the embedded combinators -/

theorem mem_zipWith {α β γ : Type} {f : α → β → γ} {as : List α} {bs : List β} {x : γ}
    (h : x ∈ List.zipWith f as bs) : ∃ a ∈ as, ∃ b ∈ bs, x = f a b := by
  induction as generalizing bs with
  | nil => simp at h
  | cons a as ih =>
    cases bs with
    | nil => simp at h
    | cons b bs =>
      rw [List.zipWith_cons_cons, List.mem_cons] at h
      rcases h with h | h
      · exact ⟨a, by simp, b, by simp, h⟩
      · obtain ⟨a1, ha, b1, hb, hx⟩ := ih h
        exact ⟨a1, by simp [ha], b1, by simp [hb], hx⟩

theorem getElem?_zipWith_some {α β γ : Type} {f : α → β → γ} {as : List α} {bs : List β}
    {i : Nat} {a : α} {b : β} (ha : as[i]? = some a) (hb : bs[i]? = some b) :
    (List.zipWith f as bs)[i]? = some (f a b) := by
  rw [List.getElem?_zipWith, ha, hb]

theorem getElem?_zipWith_inv {α β γ : Type} {f : α → β → γ} {as : List α} {bs : List β}
    {i : Nat} {x : γ} (h : (List.zipWith f as bs)[i]? = some x) :
    ∃ a b, as[i]? = some a ∧ bs[i]? = some b ∧ x = f a b := by
  rw [List.getElem?_zipWith] at h
  cases ha : as[i]? with
  | none => rw [ha] at h; simp at h
  | some a =>
    cases hb : bs[i]? with
    | none => rw [ha, hb] at h; simp at h
    | some b =>
      rw [ha, hb] at h
      exact ⟨a, b, rfl, rfl, (Option.some_inj.mp h).symm⟩

theorem signalOf_mem {l : List Bool} {s : Int} (h : s ∈ signalOf l) : s = 1 ∨ s = -1 := by
  rw [signalOf, List.mem_map] at h
  obtain ⟨b, _, hb⟩ := h
  cases b
  · right; exact hb.symm
  · left; exact hb.symm

theorem signalOf_all (l : List Bool) :
    (signalOf l).all (fun s => decide (s = 1 ∨ s = -1)) = true := by
  rw [List.all_eq_true]
  intro s hs
  simpa using signalOf_mem hs

theorem getElem?_rollingMean {p i : Nat} {xs : List FVal} (h : i < xs.length) :
    (rollingMean p xs)[i]? = some (if i + 1 < p ∨ p = 0 then FVal.nan
      else FVal.div (fsum (window p i xs)) (FVal.num p)) := by
  rw [rollingMean, List.getElem?_map, List.getElem?_range h]
  rfl

theorem getElem?_rollingSum {p i : Nat} {xs : List FVal} (h : i < xs.length) :
    (rollingSum p xs)[i]? = some (if i + 1 < p ∨ p = 0 then FVal.nan
      else fsum (window p i xs)) := by
  rw [rollingSum, List.getElem?_map, List.getElem?_range h]
  rfl

theorem getElem?_rollingStd {p i : Nat} {xs : List ℚ} (h : i < xs.length) :
    (rollingStd p xs)[i]? = some (if i + 1 < p ∨ p < 2 then FVal.nan
      else FVal.num (ratSqrt (sampleVar ((xs.take (i + 1)).drop (i + 1 - p))))) := by
  rw [rollingStd, List.getElem?_map, List.getElem?_range h]
  rfl

/-! ### Claim theorems -/

/-- Claim C10 (confirmed): every indicator method's emitted signal
column contains only the values 1 and -1 at every row — including
warm-up and undefined rows, where the comparison against the NaN
marker is False and takes the -1 branch; the signal is never a marker
or any third value. -/
theorem claim_C10 (fast slow sigp period : Nat) (close high low volume : List ℚ) :
    (SMA_Signal period close).all (fun s => decide (s = 1 ∨ s = -1)) = true ∧
    (EMA_Signal period close).all (fun s => decide (s = 1 ∨ s = -1)) = true ∧
    (MACD_Signal fast slow sigp close).all (fun s => decide (s = 1 ∨ s = -1)) = true ∧
    (RSI_Signal period close).all (fun s => decide (s = 1 ∨ s = -1)) = true ∧
    (MFI_Signal period high low close volume).all (fun s => decide (s = 1 ∨ s = -1)) = true ∧
    (ROC_Signal period close).all (fun s => decide (s = 1 ∨ s = -1)) = true ∧
    (BB_Signal period close).all (fun s => decide (s = 1 ∨ s = -1)) = true ∧
    (ATR_Signal period high low close).all (fun s => decide (s = 1 ∨ s = -1)) = true ∧
    (OBV_Signal close volume).all (fun s => decide (s = 1 ∨ s = -1)) = true ∧
    (Volume_SMA_Signal period volume).all (fun s => decide (s = 1 ∨ s = -1)) = true :=
  ⟨signalOf_all _, signalOf_all _, signalOf_all _, signalOf_all _, signalOf_all _,
   signalOf_all _, signalOf_all _, signalOf_all _, signalOf_all _, signalOf_all _⟩

/-- Claim C5 (confirmed): in `monitor_continuously`, a tick whose body
raised is logged and followed by the fixed 10-second back-off instead
of the normal interval, a successful tick by the normal interval, and
in both cases the loop falls through to the next iteration — no tick
outcome terminates the monitor. -/
theorem claim_C5 (interval : Nat) (ticks : List TickOutcome) :
    (monitor_sleeps interval ticks).length = ticks.length ∧
    (∀ t ∈ ticks, (monitor_step interval t).2 = true) ∧
    (∀ (i : Nat) (msg : String), ticks[i]? = some (TickOutcome.err msg) →
      (monitor_sleeps interval ticks)[i]? = some 10) ∧
    (∀ (i : Nat) (alerts : List Alert), ticks[i]? = some (TickOutcome.ok alerts) →
      (monitor_sleeps interval ticks)[i]? = some interval) := by
  refine ⟨by simp [monitor_sleeps], fun t _ => by cases t <;> rfl, ?_, ?_⟩
  · intro i msg h
    rw [monitor_sleeps, List.getElem?_map, h]
    rfl
  · intro i alerts h
    rw [monitor_sleeps, List.getElem?_map, h]
    rfl

/-- Witness for C5 at a concrete two-tick run: the failing tick sleeps
10 seconds, the successful one the configured 60. -/
theorem claim_C5_witness :
    (monitor_sleeps 60 [TickOutcome.err ("boom"), TickOutcome.ok []]).length = 2 ∧
    (monitor_sleeps 60 [TickOutcome.err ("boom"), TickOutcome.ok []])[0]? = some 10 ∧
    (monitor_sleeps 60 [TickOutcome.err ("boom"), TickOutcome.ok []])[1]? = some 60 := by
  have h := claim_C5 60 [TickOutcome.err ("boom"), TickOutcome.ok []]
  exact ⟨by simpa using h.1, h.2.2.1 0 "boom" (by rfl), h.2.2.2 1 [] (by rfl)⟩

/-- Counterexample to claim C6 as stated: the constructor's renaming
is not case-insensitive — the all-caps column name `CLOSE` is one of
the casings the claim covers, yet it is left unrenamed and the
resulting table has no canonical `Close` column. -/
theorem claim_C6_cex :
    standardize_column ("CLOSE") = "CLOSE" ∧ ("Close" ∈ rename_columns ["CLOSE"] → False) := by
  constructor
  · rfl
  · intro h
    simp [rename_columns, standardize_column, column_mapping, List.lookup] at h

/-- Claim C6 as amended: the constructor's renaming maps exactly the
five lowercase names `close`/`high`/`low`/`volume` to their
capitalized forms and `timestamp` to `Date`; every other column name
(including other casings such as `CLOSE`, and including lowercase
`date`) is left unchanged; and when a `Date` column exists after
renaming, the constructed table's rows are sorted ascending by the
date key (which becomes the index). -/
theorem claim_C6_amended (c : String) (cols : List String) (rows : List (ℚ × List ℚ)) :
    standardize_column ("close") = "Close" ∧
    standardize_column ("high") = "High" ∧
    standardize_column ("low") = "Low" ∧
    standardize_column ("volume") = "Volume" ∧
    standardize_column ("timestamp") = "Date" ∧
    (c ∉ ["close", "high", "low", "volume", "timestamp"] → standardize_column c = c) ∧
    ("Date" ∈ rename_columns cols →
      List.Chain' (fun a b : ℚ × List ℚ => a.1 ≤ b.1) (init_rows cols rows)) := by
  refine ⟨rfl, rfl, rfl, rfl, rfl, ?_, ?_⟩
  · intro hc
    simp only [List.mem_cons, List.not_mem_nil, or_false, not_or] at hc
    obtain ⟨h1, h2, h3, h4, h5⟩ := hc
    simp [standardize_column, column_mapping, List.lookup,
      beq_eq_false_iff_ne.mpr h1, beq_eq_false_iff_ne.mpr h2, beq_eq_false_iff_ne.mpr h3,
      beq_eq_false_iff_ne.mpr h4, beq_eq_false_iff_ne.mpr h5]
  · intro hdate
    rw [init_rows, if_pos (List.elem_eq_true_of_mem hdate)]
    have hp := @List.sorted_mergeSort (ℚ × List ℚ)
      (fun a b => decide (a.1 ≤ b.1))
      (fun a b c hab hbc => by
        simp only [decide_eq_true_eq] at *
        exact le_trans hab hbc)
      (fun a b => by simpa using le_total a.1 b.1)
      rows
    exact (hp.imp (fun h => by simpa using h)).chain'

/-- Witness for C6 as amended: a non-key name stays unchanged, and a
frame carrying a `timestamp` column comes out date-sorted. -/
theorem claim_C6_witness :
    standardize_column ("Adj") = "Adj" ∧
    List.Chain' (fun a b : ℚ × List ℚ => a.1 ≤ b.1)
      (init_rows ["timestamp"] [(2, []), (1, [])]) := by
  refine ⟨(claim_C6_amended ("Adj") [] []).2.2.2.2.2.1 (by decide), ?_⟩
  exact (claim_C6_amended ("Adj") ["timestamp"] [(2, []), (1, [])]).2.2.2.2.2.2 (by decide)

/-- Counterexample to claim C1 as stated: with a stored baseline
stddev of 0 and a current price quotient (2) different from the
baseline mean (1), numpy's float division yields +∞, not NaN, and
`abs(inf) > threshold` is True, so an alert IS emitted for that pair
on that tick. -/
theorem claim_C1_cex :
    zscoreOf 2 1 0 = FVal.inf true ∧
    check_divergence_pair ⟨("A/B"), 2, 1, 0⟩ 2 =
      some ⟨("A/B"), FVal.inf true, "SHORT"⟩ := by
  have hz : zscoreOf 2 1 0 = FVal.inf true := by
    norm_num [zscoreOf, FVal.div]
  refine ⟨hz, ?_⟩
  rw [check_divergence_pair]
  simp only [hz]
  rfl

/-- Claim C1 as amended: for a pair whose stored stddev is 0 the
z-score computation never faults, but it is NaN (with no alert
emitted) only when the current price quotient equals the baseline
mean; when the quotient differs, the z-score is a signed infinity and
an alert IS emitted regardless of the (finite) threshold — action
SHORT above the mean, LONG below it. -/
theorem claim_C1_amended (o : PairObs) (t : ℚ) (hstd : o.std = 0) :
    (o.cur = o.mean →
      zscoreOf o.cur o.mean o.std = FVal.nan ∧ check_divergence_pair o t = none) ∧
    (o.mean < o.cur →
      zscoreOf o.cur o.mean o.std = FVal.inf true ∧
      check_divergence_pair o t = some ⟨o.label, FVal.inf true, "SHORT"⟩) ∧
    (o.cur < o.mean →
      zscoreOf o.cur o.mean o.std = FVal.inf false ∧
      check_divergence_pair o t = some ⟨o.label, FVal.inf false, "LONG"⟩) := by
  refine ⟨?_, ?_, ?_⟩
  · intro h
    have hz : zscoreOf o.cur o.mean o.std = FVal.nan := by
      simp [zscoreOf, hstd, h, FVal.div]
    refine ⟨hz, ?_⟩
    rw [check_divergence_pair]
    simp only [hz]
    rfl
  · intro h
    have hz : zscoreOf o.cur o.mean o.std = FVal.inf true := by
      have h1 : o.cur - o.mean ≠ 0 := sub_ne_zero_of_ne (ne_of_gt h)
      have h2 : 0 < o.cur - o.mean := sub_pos.mpr h
      simp [zscoreOf, hstd, FVal.div, h1, h2]
    refine ⟨hz, ?_⟩
    rw [check_divergence_pair]
    simp only [hz]
    rfl
  · intro h
    have hz : zscoreOf o.cur o.mean o.std = FVal.inf false := by
      have h1 : o.cur - o.mean ≠ 0 := sub_ne_zero_of_ne (ne_of_lt h)
      have h2 : ¬ (0 < o.cur - o.mean) := by simp; linarith
      simp [zscoreOf, hstd, FVal.div, h1, h2]
    refine ⟨hz, ?_⟩
    rw [check_divergence_pair]
    simp only [hz]
    rfl

/-- Witness for C1 as amended, on the quotient-equals-mean branch:
stddev 0 and current quotient equal to the mean give z-score NaN and
no alert. -/
theorem claim_C1_witness :
    zscoreOf 1 1 0 = FVal.nan ∧ check_divergence_pair ⟨("A/B"), 1, 1, 0⟩ 2 = none :=
  (claim_C1_amended ⟨("A/B"), 1, 1, 0⟩ 2 rfl).1 rfl

/-- Claim C4 (confirmed): for a pair with a well-defined (finite)
z-score, an alert is created exactly when `|zscore|` is strictly
greater than the threshold (equality emits nothing), and its action is
`SHORT` when the z-score is positive and `LONG` otherwise (in
particular when it is negative, which is all the claim requires). -/
theorem claim_C4 (o : PairObs) (t : ℚ) (hstd : o.std ≠ 0) :
    zscoreOf o.cur o.mean o.std = FVal.num ((o.cur - o.mean) / o.std) ∧
    (check_divergence_pair o t ≠ none ↔ t < |(o.cur - o.mean) / o.std|) ∧
    (t < |(o.cur - o.mean) / o.std| →
      check_divergence_pair o t =
        some ⟨o.label, FVal.num ((o.cur - o.mean) / o.std),
          if 0 < (o.cur - o.mean) / o.std then "SHORT" else "LONG"⟩) := by
  have hz : zscoreOf o.cur o.mean o.std = FVal.num ((o.cur - o.mean) / o.std) := by
    simp [zscoreOf, FVal.div, hstd]
  refine ⟨hz, ?_, ?_⟩
  · by_cases h : t < |(o.cur - o.mean) / o.std|
    · simp [check_divergence_pair, hz, FVal.abs, FVal.gtb, FVal.ltb, h]
    · simp [check_divergence_pair, hz, FVal.abs, FVal.gtb, FVal.ltb, h]
  · intro h
    simp only [check_divergence_pair, hz, FVal.abs, FVal.gtb, FVal.ltb]
    rw [if_pos (by simpa using h)]
    by_cases hq : 0 < (o.cur - o.mean) / o.std
    · rw [if_pos hq, if_pos (by simpa using hq)]
    · rw [if_neg hq, if_neg (by simpa using hq)]

/-- Witness for C4 at the spec's own scenario: baseline mean 1,
stddev 1/10, current quotient 5/4 gives z-score 5/2 > 2, so an alert
with action SHORT is emitted. -/
theorem claim_C4_witness :
    ((5:ℚ)/4 - 1) / (1/10) = 5/2 ∧
    check_divergence_pair ⟨("A/B"), 5/4, 1, 1/10⟩ 2 =
      some ⟨("A/B"), FVal.num ((5/4 - 1) / (1/10)),
        if (0:ℚ) < (5/4 - 1) / (1/10) then "SHORT" else "LONG"⟩ :=
  ⟨by norm_num,
   (claim_C4 ⟨("A/B"), 5/4, 1, 1/10⟩ 2 (by norm_num)).2.2 (by
     rw [show ((5:ℚ)/4 - 1) / (1/10) = 5/2 by norm_num,
       show |(5:ℚ)/2| = 5/2 from abs_of_pos (by norm_num)]
     norm_num)⟩

theorem ewmAux_const (a c : ℚ) (n : Nat) :
    ewmAux a c (List.replicate n c) = List.replicate n c := by
  induction n with
  | zero => rfl
  | succ n ih =>
    rw [List.replicate_succ, ewmAux]
    have h : (1 - a) * c + a * c = c := by ring
    rw [h, ih]

theorem ewmMean_const (span n : Nat) (c : ℚ) :
    ewmMean span (List.replicate n c) = List.replicate n c := by
  cases n with
  | zero => rfl
  | succ n =>
    rw [List.replicate_succ, ewmMean, ewmAux_const, ← List.replicate_succ]

/-- Claim C8 (confirmed): on a table whose close is the same constant
at every row, MACD is 0 at every row and ROC is 0 wherever it is
defined (it is NaN on warm-up rows, and everywhere when the constant
is 0, where `pct_change` divides 0 by 0), and both emitted signals are
-1 at every row because the strict `> 0` comparison is False at
exactly zero (and False against NaN). -/
theorem claim_C8 (fast slow sigp period n : Nat) (c : ℚ) :
    MACD fast slow (List.replicate n c) = List.replicate n 0 ∧
    MACD_Signal fast slow sigp (List.replicate n c) = List.replicate n (-1) ∧
    (ROC period (List.replicate n c)).all
      (fun v => decide (v = FVal.nan ∨ v = FVal.num 0)) = true ∧
    ROC_Signal period (List.replicate n c) = List.replicate n (-1) := by
  have hm : MACD fast slow (List.replicate n c) = List.replicate n 0 := by
    rw [MACD, ewmMean_const, ewmMean_const, List.zipWith_replicate]
    simp
  have hline : MACD_Signal_Line fast slow sigp (List.replicate n c) = List.replicate n 0 := by
    rw [MACD_Signal_Line, hm, ewmMean_const]
  have hroc : ∀ v ∈ ROC period (List.replicate n c), v = FVal.nan ∨ v = FVal.num 0 := by
    intro v hv
    rw [ROC, List.mem_map] at hv
    obtain ⟨i, hi, hv⟩ := hv
    rw [List.mem_range, List.length_replicate] at hi
    by_cases hp : i < period
    · left
      rw [← hv, if_pos hp]
    · have hd1 : (List.replicate n c).getD i 0 = c := by
        rw [List.getD_eq_getElem?_getD, List.getElem?_replicate, if_pos hi]
        rfl
      have hd2 : (List.replicate n c).getD (i - period) 0 = c := by
        rw [List.getD_eq_getElem?_getD, List.getElem?_replicate,
          if_pos (lt_of_le_of_lt (Nat.sub_le i period) hi)]
        rfl
      rw [← hv, if_neg hp, hd1, hd2]
      by_cases hc : c = 0
      · left
        simp [hc, FVal.div, FVal.sub, FVal.add, FVal.neg, FVal.mul]
      · right
        simp [FVal.div, FVal.sub, FVal.add, FVal.neg, FVal.mul, hc, div_self hc]
  refine ⟨hm, ?_, List.all_eq_true.mpr (fun v hv => by simpa using hroc v hv), ?_⟩
  · rw [MACD_Signal, hm, hline, List.zipWith_replicate, signalOf, List.map_replicate]
    simp
  · rw [List.eq_replicate_iff]
    constructor
    · rw [ROC_Signal, signalOf, List.length_map, List.length_map, ROC,
        List.length_map, List.length_range, List.length_replicate]
    · intro b hb
      rw [ROC_Signal, signalOf, List.mem_map] at hb
      obtain ⟨bb, hbb, hb⟩ := hb
      rw [List.mem_map] at hbb
      obtain ⟨v, hv, hbb⟩ := hbb
      rcases hroc v hv with h | h <;>
        (subst h; rw [← hb, ← hbb]; simp [FVal.gtb, FVal.ltb])

theorem cumsumAux_chain (acc : ℚ) (l : List ℚ) (h : ∀ x ∈ l, 0 ≤ x) :
    List.Chain' (· ≤ ·) (cumsumAux acc l) := by
  induction l generalizing acc with
  | nil => exact List.chain'_nil
  | cons x xs ih =>
    rw [cumsumAux, List.chain'_cons']
    refine ⟨?_, ih (acc + x) (fun y hy => h y (List.mem_cons_of_mem _ hy))⟩
    intro y hy
    cases xs with
    | nil => simp [cumsumAux] at hy
    | cons z zs =>
      rw [cumsumAux] at hy
      simp only [List.head?_cons, Option.mem_def, Option.some_inj] at hy
      have hz : 0 ≤ z := h z (by simp)
      linarith [hy.symm]

theorem zipWith_diff_pos {x : ℚ} {xs : List ℚ} (h : List.Chain' (· < ·) (x :: xs)) :
    ∀ d ∈ List.zipWith (fun a b => FVal.num (a - b)) xs (x :: xs),
      ∃ q, d = FVal.num q ∧ 0 < q := by
  induction xs generalizing x with
  | nil => simp
  | cons y ys ih =>
    intro d hd
    rw [List.zipWith_cons_cons, List.mem_cons] at hd
    rcases hd with hd | hd
    · exact ⟨y - x, hd, sub_pos.mpr (List.chain'_cons.mp h).1⟩
    · exact ih (List.chain'_cons.mp h).2 d hd

theorem obvMult_of_chain {close : List ℚ} (h : List.Chain' (· < ·) close) :
    ∀ m ∈ obvMult close, m = 1 := by
  intro m hm
  rw [obvMult, List.mem_map] at hm
  obtain ⟨d, hd, hm⟩ := hm
  cases close with
  | nil => simp [diffQ] at hd
  | cons x xs =>
    rw [diffQ, List.mem_cons] at hd
    rcases hd with hd | hd
    · subst hd
      exact hm.symm
    · obtain ⟨q, hq, hpos⟩ := zipWith_diff_pos h d hd
      subst hq
      rw [← hm]
      simp [FVal.leb, not_le.mpr hpos]

/-- Counterexample to claim C2 as stated: the table with closes
`[1, 1]` (each close ≥ the previous) and volumes `[1, 1]` is
non-decreasing in close, yet OBV is `[1, 0]`, which decreases — the
code's `~diff.le(0)` multiplier subtracts volume on an *equal* close
rather than adding it. -/
theorem claim_C2_cex :
    List.Chain' (· ≤ ·) [(1:ℚ), 1] ∧
    OBV [(1:ℚ), 1] [1, 1] = [1, 0] ∧
    ¬ List.Chain' (· ≤ ·) (OBV [(1:ℚ), 1] [1, 1]) := by
  have hv : OBV [(1:ℚ), 1] [1, 1] = [1, 0] := by
    norm_num [OBV, cumsumQ, cumsumAux, obvMult, diffQ, FVal.leb]
  refine ⟨by simp, hv, ?_⟩
  intro h
  rw [hv, List.chain'_cons] at h
  have := h.1
  linarith

/-- Claim C2 as amended: the OBV multiplier adds a bar's volume only
when its close *strictly* exceeds the previous close (the first bar,
whose `diff` is NaN, also adds), and subtracts on a close that fell or
stayed equal; consequently OBV is monotonically non-decreasing on
every table whose closes are strictly increasing and whose volumes are
non-negative. -/
theorem claim_C2_amended (close volume : List ℚ)
    (hmono : List.Chain' (· < ·) close) (hvol : ∀ v ∈ volume, 0 ≤ v) :
    (∀ m ∈ obvMult close, m = 1) ∧ List.Chain' (· ≤ ·) (OBV close volume) := by
  refine ⟨obvMult_of_chain hmono, ?_⟩
  rw [OBV, cumsumQ]
  apply cumsumAux_chain
  intro x hx
  obtain ⟨v, hv, m, hm, hx⟩ := mem_zipWith hx
  subst hx
  rw [obvMult_of_chain hmono m hm]
  simpa using hvol v hv

/-- Witness for C2 as amended at a strictly increasing table: every
multiplier is +1 and OBV is non-decreasing. -/
theorem claim_C2_witness :
    (∀ m ∈ obvMult [(1:ℚ), 2], m = 1) ∧
    List.Chain' (· ≤ ·) (OBV [(1:ℚ), 2] [1, 1]) :=
  claim_C2_amended [1, 2] [1, 1] (by norm_num) (by norm_num)

/-- What the `100 - 100/(1 + rs)` mapping does at a row whose
denominator is exactly zero: NaN when the numerator is zero (0/0) or
itself NaN, and the plain number 100 in every other case — the ratio
is then a signed infinity, `1 + ±∞ = ±∞`, `100/±∞ = 0`, and
`100 - 0 = 100`. -/
theorem rs_to_index_div_zero (g : FVal) :
    rs_to_index (FVal.div g (FVal.num 0)) =
      if g = FVal.num 0 ∨ g = FVal.nan then FVal.nan else FVal.num 100 := by
  match g with
  | .nan => rfl
  | .inf s =>
    simp only [show (FVal.inf s = FVal.num 0 ∨ FVal.inf s = FVal.nan) = False by
      simp, if_false]
    simp [rs_to_index, FVal.div, FVal.add, FVal.sub, FVal.neg]
  | .num a =>
    by_cases ha : a = 0
    · subst ha
      simp [rs_to_index, FVal.div, FVal.add, FVal.sub, FVal.neg]
    · simp only [show (FVal.num a = FVal.num 0 ∨ FVal.num a = FVal.nan) = False by
        simp [ha], if_false]
      simp [rs_to_index, FVal.div, FVal.add, FVal.sub, FVal.neg, ha]

/-- Counterexample to claim C3 as stated: with period 1 and closes
`[1, 2]`, the rolling-average loss at row 1 is exactly 0 (zero
denominator) while the gain is 1, and the RSI value at that row is the
ordinary number 100 — not the not-a-number marker (pandas divides the
positive gain by the zero loss to +∞, and `100 - 100/(1+∞)` is 100). -/
theorem claim_C3_cex :
    (loss 1 [(1:ℚ), 2])[1]? = some (FVal.num 0) ∧
    (RSI 1 [(1:ℚ), 2])[1]? = some (FVal.num 100) := by
  constructor
  · norm_num [loss, rollingMean, diffQ, window, fsum, FVal.ltb, FVal.neg, FVal.add,
      FVal.div, List.range_succ]
  · norm_num [RSI, gain, loss, rollingMean, diffQ, window, fsum, rs_to_index,
      FVal.gtb, FVal.ltb, FVal.neg, FVal.add, FVal.sub, FVal.div, List.range_succ]

/-- Claim C3 as amended: at a row where the ratio's denominator (the
rolling-average loss for RSI, the rolling negative money-flow sum for
MFI) is exactly zero, the computation never faults; the value is the
not-a-number marker exactly when the numerator at that row is zero or
itself undefined, and is the ordinary number 100 (reached through an
infinite ratio) whenever the numerator is nonzero. -/
theorem claim_C3_amended (period : Nat) (close high low volume : List ℚ) (i : Nat)
    (g p : FVal) :
    ((loss period close)[i]? = some (FVal.num 0) →
      (gain period close)[i]? = some g →
      (RSI period close)[i]? =
        some (if g = FVal.num 0 ∨ g = FVal.nan then FVal.nan else FVal.num 100)) ∧
    ((negative_flow period high low close volume)[i]? = some (FVal.num 0) →
      (positive_flow period high low close volume)[i]? = some p →
      (MFI period high low close volume)[i]? =
        some (if p = FVal.num 0 ∨ p = FVal.nan then FVal.nan else FVal.num 100)) := by
  constructor
  · intro hl hg
    rw [RSI, getElem?_zipWith_some hg hl, rs_to_index_div_zero]
  · intro hn hp
    rw [MFI, getElem?_zipWith_some hp hn, rs_to_index_div_zero]

/-- Witness for C3 as amended: period 1, closes `[1, 2]` for RSI
(gain 1, loss 0 at row 1) and a flat-high/low/close table for MFI
(positive flow 2, negative flow 0 at row 1); both indices evaluate to
100 through the nonzero-numerator branch. -/
theorem claim_C3_witness :
    (RSI 1 [(1:ℚ), 2])[1]? =
      some (if FVal.num 1 = FVal.num 0 ∨ FVal.num 1 = FVal.nan
            then FVal.nan else FVal.num 100) ∧
    (MFI 1 [(1:ℚ), 2] [(1:ℚ), 2] [(1:ℚ), 2] [(1:ℚ), 1])[1]? =
      some (if FVal.num 2 = FVal.num 0 ∨ FVal.num 2 = FVal.nan
            then FVal.nan else FVal.num 100) := by
  have h := claim_C3_amended 1 [(1:ℚ), 2] [(1:ℚ), 2] [(1:ℚ), 2] [(1:ℚ), 1] 1
    (FVal.num 1) (FVal.num 2)
  refine ⟨h.1 ?_ ?_, h.2 ?_ ?_⟩
  · norm_num [loss, rollingMean, diffQ, window, fsum, FVal.ltb, FVal.neg, FVal.add,
      FVal.div, List.range_succ]
  · norm_num [gain, rollingMean, diffQ, window, fsum, FVal.gtb, FVal.ltb, FVal.add,
      FVal.div, List.range_succ]
  · norm_num [negative_flow, rollingSum, tp_down, typical_price, money_flow, shiftF,
      window, fsum, FVal.ltb, FVal.add, List.range_succ]
  · norm_num [positive_flow, rollingSum, tp_up, typical_price, money_flow, shiftF,
      window, fsum, FVal.gtb, FVal.ltb, FVal.add, List.range_succ]

theorem fsum_nonneg {l : List FVal} (h : ∀ x ∈ l, ∃ q, x = FVal.num q ∧ 0 ≤ q) :
    ∃ s, fsum l = FVal.num s ∧ 0 ≤ s := by
  induction l with
  | nil => exact ⟨0, rfl, le_refl 0⟩
  | cons x xs ih =>
    obtain ⟨q, hx, hq⟩ := h x (by simp)
    obtain ⟨s, hs, hs0⟩ := ih (fun y hy => h y (by simp [hy]))
    refine ⟨q + s, ?_, by linarith⟩
    rw [fsum, List.foldr_cons, ← fsum, hx, hs]
    rfl

theorem window_subset {p i : Nat} {xs : List FVal} {x : FVal} (h : x ∈ window p i xs) :
    x ∈ xs :=
  List.mem_of_mem_take (List.mem_of_mem_drop h)

theorem rollingMean_entry {p i : Nat} {xs : List FVal} {v : FVal}
    (hxs : ∀ x ∈ xs, ∃ q, x = FVal.num q ∧ 0 ≤ q)
    (hv : (rollingMean p xs)[i]? = some v) :
    v = FVal.nan ∨ ∃ s, v = FVal.num s ∧ 0 ≤ s := by
  have hi : i < xs.length := by
    have h := (List.getElem?_eq_some.mp hv).1
    simpa [rollingMean] using h
  rw [getElem?_rollingMean hi, Option.some_inj] at hv
  by_cases hp : i + 1 < p ∨ p = 0
  · left
    rw [← hv, if_pos hp]
  · right
    rw [← hv, if_neg hp]
    obtain ⟨s, hs, hs0⟩ := fsum_nonneg (fun x hx => hxs x (window_subset hx))
    rw [hs]
    have hp0 : ((p : ℚ)) ≠ 0 := by
      have : p ≠ 0 := fun h0 => hp (Or.inr h0)
      exact_mod_cast this
    refine ⟨s / p, ?_, div_nonneg hs0 (by positivity)⟩
    simp [FVal.div, hp0]

theorem diffQ_entries {close : List ℚ} : ∀ d ∈ diffQ close, d = FVal.nan ∨ ∃ q, d = FVal.num q := by
  intro d hd
  cases close with
  | nil => simp [diffQ] at hd
  | cons x xs =>
    rw [diffQ, List.mem_cons] at hd
    rcases hd with hd | hd
    · left; exact hd
    · right
      obtain ⟨a, _, b, _, h⟩ := mem_zipWith hd
      exact ⟨a - b, h⟩

theorem clip_pos_entries {close : List ℚ} :
    ∀ x ∈ (diffQ close).map (fun d => if FVal.gtb d (FVal.num 0) then d else FVal.num 0),
      ∃ q, x = FVal.num q ∧ 0 ≤ q := by
  intro x hx
  rw [List.mem_map] at hx
  obtain ⟨d, hd, hx⟩ := hx
  subst hx
  rcases diffQ_entries d hd with rfl | ⟨q, rfl⟩
  · exact ⟨0, rfl, le_refl 0⟩
  · by_cases hq : 0 < q
    · exact ⟨q, by simp [FVal.gtb, FVal.ltb, hq], le_of_lt hq⟩
    · exact ⟨0, by simp [FVal.gtb, FVal.ltb, hq], le_refl 0⟩

theorem clip_neg_entries {close : List ℚ} :
    ∀ x ∈ (diffQ close).map
        (fun d => FVal.neg (if FVal.ltb d (FVal.num 0) then d else FVal.num 0)),
      ∃ q, x = FVal.num q ∧ 0 ≤ q := by
  intro x hx
  rw [List.mem_map] at hx
  obtain ⟨d, hd, hx⟩ := hx
  subst hx
  rcases diffQ_entries d hd with rfl | ⟨q, rfl⟩
  · exact ⟨0, by simp [FVal.ltb, FVal.neg], le_refl 0⟩
  · by_cases hq : q < 0
    · exact ⟨-q, by simp [FVal.ltb, FVal.neg, hq], by linarith⟩
    · exact ⟨0, by simp [FVal.ltb, FVal.neg, hq], le_refl 0⟩

theorem rs_to_index_bounds {g l : FVal}
    (hg : g = FVal.nan ∨ ∃ a, g = FVal.num a ∧ 0 ≤ a)
    (hl : l = FVal.nan ∨ ∃ b, l = FVal.num b ∧ 0 ≤ b) :
    rs_to_index (FVal.div g l) = FVal.nan ∨
      ∃ v, rs_to_index (FVal.div g l) = FVal.num v ∧ 0 ≤ v ∧ v ≤ 100 := by
  rcases hg with rfl | ⟨a, rfl, ha⟩
  · left
    cases l <;> rfl
  rcases hl with rfl | ⟨b, rfl, hb⟩
  · left; rfl
  by_cases hb0 : b = 0
  · subst hb0
    rw [rs_to_index_div_zero]
    by_cases ha0 : a = 0
    · left; simp [ha0]
    · right
      exact ⟨100, by simp [ha0], by norm_num⟩
  · right
    have hr : 0 ≤ a / b := div_nonneg ha hb
    have h1 : (0:ℚ) < 1 + a / b := by linarith
    have hdv : FVal.div (FVal.num a) (FVal.num b) = FVal.num (a / b) := by
      simp [FVal.div, hb0]
    rw [hdv, rs_to_index]
    have hcalc : FVal.sub (FVal.num 100)
        (FVal.div (FVal.num 100) (FVal.add (FVal.num 1) (FVal.num (a / b)))) =
        FVal.num (100 - 100 / (1 + a / b)) := by
      simp [FVal.add, FVal.div, FVal.sub, FVal.neg, ne_of_gt h1]
      ring_nf
    rw [hcalc]
    refine ⟨100 - 100 / (1 + a / b), rfl, ?_, ?_⟩
    · have hd : 100 / (1 + a / b) ≤ 100 := div_le_self (by norm_num) (by linarith)
      linarith
    · have hd : 0 < 100 / (1 + a / b) := by positivity
      linarith

/-- Claim C7 (confirmed): every defined (non-NaN) RSI value lies in
`[0, 100]`, and at a row where RSI is exactly 50 the emitted signal is
-1 — the strict `> 50` comparison puts the boundary in the -1 branch. -/
theorem claim_C7 (period : Nat) (close : List ℚ) (i : Nat) (v : ℚ)
    (hv : (RSI period close)[i]? = some (FVal.num v)) :
    0 ≤ v ∧ v ≤ 100 ∧ (v = 50 → (RSI_Signal period close)[i]? = some (-1)) := by
  have hsig : v = 50 → (RSI_Signal period close)[i]? = some (-1) := by
    intro h50
    subst h50
    rw [RSI_Signal, signalOf, List.getElem?_map, List.getElem?_map, hv]
    simp [FVal.gtb, FVal.ltb]
  rw [RSI] at hv
  obtain ⟨g, l, hg, hl, hx⟩ := getElem?_zipWith_inv hv
  have hgg := rollingMean_entry (clip_pos_entries) (by rw [gain] at hg; exact hg)
  have hll := rollingMean_entry (clip_neg_entries) (by rw [loss] at hl; exact hl)
  rcases rs_to_index_bounds hgg hll with hnan | ⟨w, hw, hw0, hw100⟩
  · rw [hnan] at hx
    exact absurd hx (by simp)
  · rw [hw] at hx
    obtain rfl : v = w := by injection hx
    exact ⟨hw0, hw100, hsig⟩

/-- Witness for C7: with period 1 and closes `[1, 2]`, RSI at row 1 is
the defined value 100, which satisfies the bounds. -/
theorem claim_C7_witness :
    0 ≤ (100:ℚ) ∧ (100:ℚ) ≤ 100 ∧
      ((100:ℚ) = 50 → (RSI_Signal 1 [(1:ℚ), 2])[1]? = some (-1)) :=
  claim_C7 1 [1, 2] 1 100 (by
    norm_num [RSI, gain, loss, rollingMean, diffQ, window, fsum, rs_to_index,
      FVal.gtb, FVal.ltb, FVal.neg, FVal.add, FVal.sub, FVal.div, List.range_succ])

theorem ratSqrt_nonneg (q : ℚ) : 0 ≤ ratSqrt q := by
  rw [ratSqrt]
  positivity

/-- Claim C9 (confirmed): at every row where the Bollinger bands are
defined, `BB_lower ≤ BB_middle ≤ BB_upper`, for every non-negative
stddev multiplier — the rolling standard deviation is a square root
and hence non-negative, so adding/subtracting `std_dev * std` keeps
the ordering. -/
theorem claim_C9 (period : Nat) (std_dev : ℚ) (close : List ℚ) (i : Nat) (u m l : ℚ)
    (hk : 0 ≤ std_dev)
    (hu : (BB_upper period std_dev close)[i]? = some (FVal.num u))
    (hm : (BB_middle period close)[i]? = some (FVal.num m))
    (hl : (BB_lower period std_dev close)[i]? = some (FVal.num l)) :
    l ≤ m ∧ m ≤ u := by
  rw [BB_upper] at hu
  rw [BB_lower] at hl
  obtain ⟨m1, s1, hm1, hs1, hequ⟩ := getElem?_zipWith_inv hu
  obtain ⟨m2, s2, hm2, hs2, heql⟩ := getElem?_zipWith_inv hl
  have hm1e : m1 = FVal.num m := Option.some_inj.mp (hm1.symm.trans hm)
  have hm2e : m2 = FVal.num m := Option.some_inj.mp (hm2.symm.trans hm)
  have hi : i < close.length := by
    have h := (List.getElem?_eq_some.mp hm).1
    simpa [BB_middle, rollingMean] using h
  rw [getElem?_rollingStd hi, Option.some_inj] at hs1
  rw [getElem?_rollingStd hi, Option.some_inj] at hs2
  by_cases hg : i + 1 < period ∨ period < 2
  · rw [if_pos hg] at hs1
    rw [← hs1, hm1e] at hequ
    exact absurd hequ (by simp [FVal.mul, FVal.add])
  · rw [if_neg hg] at hs1
    rw [if_neg hg] at hs2
    set sq := ratSqrt (sampleVar ((close.take (i + 1)).drop (i + 1 - period))) with hsqdef
    have hsq0 : 0 ≤ sq := ratSqrt_nonneg _
    rw [← hs1, hm1e] at hequ
    rw [← hs2, hm2e] at heql
    have hu2 : u = m + std_dev * sq := by
      simpa [FVal.add, FVal.mul] using hequ
    have hl2 : l = m - std_dev * sq := by
      simpa [FVal.sub, FVal.add, FVal.mul, FVal.neg, sub_eq_add_neg] using heql
    have hprod : 0 ≤ std_dev * sq := mul_nonneg hk hsq0
    constructor <;> [rw [hl2]; rw [hu2]] <;> linarith

/-- Witness for C9: period 2, multiplier 2, closes `[1, 3]` — at row 1
the middle band is 2, the sample deviation is √2 (observed through the
rational square-root model as 1), and the bands are `0 ≤ 2 ≤ 4`. -/
theorem claim_C9_witness : (0:ℚ) ≤ 2 ∧ (2:ℚ) ≤ 4 := by
  have hmid : BB_middle 2 [(1:ℚ), 3] = [FVal.nan, FVal.num 2] := by
    norm_num [BB_middle, rollingMean, window, fsum, FVal.add, FVal.div, List.range_succ]
  have hvar : sampleVar [(1:ℚ), 3] = 2 := by
    norm_num [sampleVar]
  have hsq : ratSqrt 2 = 1 := by
    norm_num [ratSqrt, natSqrtA, List.range_succ, List.filter]
  have hstd : rollingStd 2 [(1:ℚ), 3] = [FVal.nan, FVal.num 1] := by
    norm_num [rollingStd, List.range_succ, hvar, hsq]
  exact claim_C9 2 2 [1, 3] 1 4 2 0 (by norm_num)
    (by rw [BB_upper, hmid, hstd]; norm_num [FVal.add, FVal.mul])
    (by rw [hmid]; rfl)
    (by rw [BB_lower, hmid, hstd]; norm_num [FVal.sub, FVal.add, FVal.neg, FVal.mul])

end Angela
